import Mathlib

/-!
Shallow embedding of the core theme-management logic of the grub-theme
repository (src/core/theme_manager.py and src/core/models.py), together
with theorems checking the specification's claims about it.

Strings are modelled as `List Char`; the Python string primitives used by
the source (strip, replace, split-once, Path.suffix / Path.stem, ...) are
embedded as executable functions with Python's semantics.
-/

namespace GrubTheme

/-- Strings of the modelled program. -/
abbrev Str := List Char

/-! ## Python string primitives -/

/-- Python `str.strip()` (default whitespace stripping at both ends). -/
def pyStrip (s : Str) : Str :=
  ((s.dropWhile Char.isWhitespace).reverse.dropWhile Char.isWhitespace).reverse

/-- The characters stripped by the source's `strip('"\'')` call. -/
def isQuoteCh (c : Char) : Bool :=
  c == '"' || c == Char.ofNat 39

/-- Python `str.strip('"\'')`: remove quote characters at both ends. -/
def pyStripQuotes (s : Str) : Str :=
  ((s.dropWhile isQuoteCh).reverse.dropWhile isQuoteCh).reverse

/-- Index of the last occurrence of `c` in `s` (Python `str.rfind`),
`none` when absent. -/
def lastIndexOf (c : Char) : Str → Option Nat
  | [] => none
  | x :: xs =>
    match lastIndexOf c xs with
    | some i => some (i + 1)
    | none => if x = c then some 0 else none

/-- Python `pathlib.PurePath.suffix` of a file name: the final extension
including the dot, where the dot may be neither the first nor the last
character; empty otherwise. -/
def pySuffix (name : Str) : Str :=
  match lastIndexOf '.' name with
  | some i => if 0 < i ∧ i < name.length - 1 then name.drop i else []
  | none => []

/-- Python `pathlib.PurePath.stem` of a file name: the name with the final
extension removed (under the same dot-position condition as `pySuffix`). -/
def pyStem (name : Str) : Str :=
  match lastIndexOf '.' name with
  | some i => if 0 < i ∧ i < name.length - 1 then name.take i else name
  | none => name

/-- The part of `s` after the first occurrence of `delim`
(Python `s.split(delim, 1)[1]`), `none` when `delim` does not occur. -/
def splitAfterFirst (delim : Str) : Str → Option Str
  | [] => none
  | c :: rest =>
    if delim.isPrefixOf (c :: rest) then some (List.drop (delim.length - 1) rest)
    else splitAfterFirst delim rest

/-- Fuel-indexed worker for `pyReplace`; the fuel bounds the scan length. -/
def pyReplaceAux (old new : Str) : Nat → Str → Str
  | _, [] => []
  | 0, s => s
  | fuel + 1, c :: rest =>
    if old.isPrefixOf (c :: rest) then
      new ++ pyReplaceAux old new fuel (List.drop (old.length - 1) rest)
    else
      c :: pyReplaceAux old new fuel rest

/-- Python `s.replace(old, new)` for non-empty `old`: replace every
occurrence left to right, without rescanning replaced text. -/
def pyReplace (s old new : Str) : Str :=
  pyReplaceAux old new s.length s

/-- Python `pat in s` on strings: substring test. -/
def containsSub (pat : Str) : Str → Bool
  | [] => pat.isEmpty
  | c :: rest => pat.isPrefixOf (c :: rest) || containsSub pat rest

/-- Model of `random.choice`: the oracle `k` picks an index into the list. -/
def pyChoice (k : Nat) (l : List Str) : Str :=
  l.getD (k % l.length) []

/-! ## Boot-config constants (from `theme_manager.py`) -/

/-- The directive key `GRUB_THEME=` looked for in `/etc/default/grub`. -/
def grubThemeKey : Str := "GRUB_THEME=".toList

/-- The catalog root `/usr/share/grub/themes/` embedded in directive paths. -/
def catalogRoot : Str := "/usr/share/grub/themes/".toList

/-- The trailing descriptor part `/theme.txt` of a directive path. -/
def descTail : Str := "/theme.txt".toList

/-- The catalog-root marker without its leading and trailing slash; a
theme name containing it can splice with the surrounding path pieces. -/
def catalogMarker : Str := "usr/share/grub/themes".toList

/-- The directive line written by `_update_grub_config` for a theme name. -/
def themeLine (name : Str) : Str :=
  "GRUB_THEME=\"/usr/share/grub/themes/".toList ++ name ++ "/theme.txt\"".toList

/-! ## `_get_current_theme_from_grub` -/

/-- Per-line body of the parse loop in `_get_current_theme_from_grub`:
strip the line; if it starts with `GRUB_THEME=` (and not with `#`), take
the part after the first `=`, strip quotes, and -- when the value contains
the catalog root -- delete all occurrences of the catalog root and of
`/theme.txt`; a non-empty remainder is returned.  `none` means the loop
continues with the next line. -/
def parseGrubThemeLine (raw : Str) : Option Str :=
  let line := pyStrip raw
  if grubThemeKey.isPrefixOf line && !(['#'].isPrefixOf line) then
    match splitAfterFirst ['='] line with
    | none => none
    | some afterEq =>
      let themePathMatch := pyStripQuotes afterEq
      if containsSub catalogRoot themePathMatch then
        let name := pyReplace (pyReplace themePathMatch catalogRoot []) descTail []
        if name.isEmpty then none else some name
      else none
  else none

/-- `_get_current_theme_from_grub`: `none` when the config file is missing,
otherwise the first line from which a theme name can be extracted. -/
def getCurrentThemeFromGrub (cfg : Option (List Str)) : Option Str :=
  match cfg with
  | none => none
  | some lines => lines.findSome? parseGrubThemeLine

/-- The line-rewrite step of `_update_grub_config`: replace the first line
starting with `GRUB_THEME=` in place, otherwise append the new line. -/
def updateGrubLines (tl : Str) : List Str → List Str
  | [] => [tl]
  | l :: rest =>
    if grubThemeKey.isPrefixOf l then tl :: rest
    else l :: updateGrubLines tl rest

/-! ## `_extract_theme_name_from_file` -/

/-- `_extract_theme_name_from_file`: strip the compound extensions
`.tar.gz`, `.tar.bz2`, `.tar.xz` whole; otherwise take the stem. -/
def extractThemeNameFromFile (fileName : Str) : Str :=
  if ".tar.gz".toList.isSuffixOf fileName then
    fileName.take (fileName.length - 7)
  else if ".tar.bz2".toList.isSuffixOf fileName then
    fileName.take (fileName.length - 8)
  else if ".tar.xz".toList.isSuffixOf fileName then
    fileName.take (fileName.length - 7)
  else
    pyStem fileName

/-! ## Result and message model

Messages stand for the translated/format strings produced by the source;
each constructor is one message template, with its format arguments. -/

/-- The error recorded in `last_error` for a failed regeneration candidate. -/
inductive LastError
  | cmdFailed (cmd0 : Str) (stderr : Str)
  | cmdMissing (cmd0 : Str)
  | cmdTimeout (cmd0 : Str)
  | cmdError (cmd0 : Str) (e : Str)
deriving DecidableEq, Repr

/-- Message templates of `ThemeOperation` results. -/
inductive Msg
  | themePathDoesNotExist (path : Str)
  | alreadyInPlaylist (name : Str)
  | invalidThemeMissingThemeTxt
  | addedToPlaylist (name : Str)
  | notInPlaylist (name : Str)
  | removedFromPlaylist (name : Str)
  | themeDoesNotExist (name : Str)
  | invalidTheme (name : Str)
  | themeSet (name : Str)
  | playlistEmpty
  | onlyOneThemeInPlaylist
  | fileDoesNotExist (path : Str)
  | themeAlreadyExists (name : Str)
  | unsupportedFileType (suffix : Str)
  | noValidThemeInZip
  | noValidThemeInTar
  | extractedNotValidZip
  | extractedNotValidTar
  | sourceDirNotValidTheme
  | themeInstalled (name : Str)
  | installFailed
  | urlInstallFailed
  | grubConfigFileMissing
  | grubConfigUpdated (cmd0 : Str)
  | allUpdateCommandsFailed (last : Option LastError)
  | updateGrubConfigFailed
deriving DecidableEq, Repr

/-- The `ThemeOperation` result dataclass (`success`, `message`). -/
structure ThemeOperation where
  success : Bool
  message : Msg
deriving DecidableEq, Repr

/-- Exceptions that escape a helper and are caught at the facade boundary. -/
inductive Exc
  | permissionError
  | archiveOpenError
  | copyTreeError
deriving DecidableEq, Repr

/-! ## Regeneration commands (`_get_grub_update_commands` and the loop) -/

/-- A candidate regeneration command (`argv` list). -/
abbrev Cmd := List Str

/-- Outcome of running one candidate command (`subprocess.run` model). -/
inductive CmdOutcome
  | exited (code : Int) (stderr : Str)
  | notFound
  | timedOut
  | raised (e : Str)
deriving DecidableEq, Repr

/-- Distro family as classified by `_detect_distro`. -/
inductive DistroFamily
  | debian
  | arch
  | fedora
  | suse
  | unknown
deriving DecidableEq, Repr

/-- The generic fallback commands appended by `_get_grub_update_commands`. -/
def fallbackCommands : List Cmd :=
  [["update-grub".toList],
   ["grub-mkconfig".toList, "-o".toList, "/boot/grub/grub.cfg".toList],
   ["grub2-mkconfig".toList, "-o".toList, "/boot/grub2/grub.cfg".toList]]

/-- `_get_grub_update_commands`: family-specific primary commands followed
by the deduplicated generic fallbacks. -/
def getGrubUpdateCommands (family : DistroFamily) (uefi : Bool) : List Cmd :=
  let commands : List Cmd :=
    match family with
    | .debian => [["update-grub".toList]]
    | .arch =>
      if uefi then [["grub-mkconfig".toList, "-o".toList, "/boot/grub/grub.cfg".toList]]
      else [["grub-mkconfig".toList, "-o".toList, "/boot/grub/grub.cfg".toList]]
    | .fedora =>
      if uefi then
        [["grub2-mkconfig".toList, "-o".toList, "/boot/efi/EFI/fedora/grub.cfg".toList],
         ["grub2-mkconfig".toList, "-o".toList, "/boot/grub2/grub.cfg".toList]]
      else [["grub2-mkconfig".toList, "-o".toList, "/boot/grub2/grub.cfg".toList]]
    | .suse => [["grub2-mkconfig".toList, "-o".toList, "/boot/grub2/grub.cfg".toList]]
    | .unknown => []
  fallbackCommands.foldl (fun acc cmd => if cmd ∈ acc then acc else acc ++ [cmd]) commands

/-- The `last_error` value recorded for a candidate that did not succeed. -/
def errOf (cmd : Cmd) (oc : CmdOutcome) : LastError :=
  match oc with
  | .exited _ stderr => .cmdFailed (cmd.headD []) stderr
  | .notFound => .cmdMissing (cmd.headD [])
  | .timedOut => .cmdTimeout (cmd.headD [])
  | .raised e => .cmdError (cmd.headD []) e

/-- Whether a candidate outcome counts as success (exit code 0). -/
def isCmdSuccess (oc : CmdOutcome) : Bool :=
  match oc with
  | .exited code _ => code == 0
  | _ => false

/-- The candidate loop of `_update_grub_config`: try each command in order,
stop at the first exit code 0, record the error of each failure, and fail
with the last recorded error when the list is exhausted. -/
def runUpdateCommands (run : Cmd → CmdOutcome) : List Cmd → Option LastError → ThemeOperation
  | [], last => ⟨false, .allUpdateCommandsFailed last⟩
  | cmd :: rest, _last =>
    match run cmd with
    | .exited code stderr =>
      if code = 0 then ⟨true, .grubConfigUpdated (cmd.headD [])⟩
      else runUpdateCommands run rest (some (.cmdFailed (cmd.headD []) stderr))
    | .notFound => runUpdateCommands run rest (some (.cmdMissing (cmd.headD [])))
    | .timedOut => runUpdateCommands run rest (some (.cmdTimeout (cmd.headD [])))
    | .raised e => runUpdateCommands run rest (some (.cmdError (cmd.headD []) e))

/-! ## Persistent state -/

/-- The `playlist` field of the parsed playlist JSON document
(`data.get("playlist", [])` and the `isinstance(list)` check). -/
inductive PlaylistField
  | strings (xs : List Str)
  | notAList
  | absent
deriving DecidableEq, Repr

/-- Parsed playlist JSON document. -/
structure PlaylistDoc where
  playlistField : PlaylistField
  currentTheme : Option Str
  lastUpdated : Str
deriving DecidableEq, Repr

/-- State of the playlist JSON file on disk. -/
inductive PlaylistFileState
  | missing
  | corrupt
  | doc (d : PlaylistDoc)
deriving DecidableEq, Repr

/-- The file-system state the manager reads and writes: the lines of
`/etc/default/grub` (`none` = missing file), the playlist JSON file, the
names of the immediate subdirectories of the theme catalog, and the
working directory recorded in `last_updated`. -/
structure FS where
  grubConfig : Option (List Str)
  playlistFile : PlaylistFileState
  catalog : List Str
  cwd : Str
deriving DecidableEq, Repr

/-- In-memory manager state (`_playlist`, `_current_theme`). -/
structure TMState where
  playlist : List Str
  currentTheme : Option Str
deriving DecidableEq, Repr

/-- `load_playlist`: a missing, corrupt, or wrongly-typed playlist file
degrades to an empty playlist; the current theme is always re-derived from
the boot config. Returns the new `(_playlist, _current_theme)` pair. -/
def loadPlaylist (fs : FS) : List Str × Option Str :=
  let pl :=
    match fs.playlistFile with
    | .missing => []
    | .corrupt => []
    | .doc d =>
      match d.playlistField with
      | .strings xs => xs
      | .notAList => []
      | .absent => []
  (pl, getCurrentThemeFromGrub fs.grubConfig)

/-- `save_playlist`: write the in-memory playlist together with the
current theme freshly re-derived from the boot config. -/
def savePlaylist (st : TMState) (fs : FS) : FS :=
  { fs with
    playlistFile :=
      .doc ⟨.strings st.playlist, getCurrentThemeFromGrub fs.grubConfig, fs.cwd⟩ }

/-! ## Facade operations -/

/-- Environment for `set_theme`/`_update_grub_config`: whether the process
is root, whether the theme directory passes `Theme.is_valid`, the detected
distro family and UEFI flag, and the outcome of each external command. -/
structure SetEnv where
  isRoot : Bool
  themeValid : Bool
  family : DistroFamily
  uefi : Bool
  run : Cmd → CmdOutcome

/-- `_update_grub_config`: requires root, fails when the config file is
missing, rewrites or appends the `GRUB_THEME` directive line, then tries
the regeneration candidates.  The file mutation is kept even when every
candidate fails (the known asymmetry). -/
def updateGrubConfig (name : Str) (env : SetEnv) (fs : FS) : ThemeOperation × FS :=
  if ¬ env.isRoot then (⟨false, .updateGrubConfigFailed⟩, fs)
  else
    match fs.grubConfig with
    | none => (⟨false, .grubConfigFileMissing⟩, fs)
    | some lines =>
      let fs' := { fs with grubConfig := some (updateGrubLines (themeLine name) lines) }
      (runUpdateCommands env.run (getGrubUpdateCommands env.family env.uefi) none, fs')

/-- `set_theme`: validate the theme, update the boot config, and on
success record the new current theme and persist the playlist. -/
def setTheme (name : Str) (env : SetEnv) (st : TMState) (fs : FS) :
    ThemeOperation × TMState × FS :=
  if ¬ (name ∈ fs.catalog) then (⟨false, .themeDoesNotExist name⟩, st, fs)
  else if ¬ env.themeValid then (⟨false, .invalidTheme name⟩, st, fs)
  else
    let r := (updateGrubConfig name env fs).1
    let fs' := (updateGrubConfig name env fs).2
    if r.success then
      let st' : TMState := ⟨st.playlist, some name⟩
      (⟨true, .themeSet name⟩, st', savePlaylist st' fs')
    else (r, st, fs')

/-- The argument of `add_theme`: the path's final component, whether the
path exists, and whether `<path>/theme.txt` exists. -/
structure AddPath where
  name : Str
  pathExists : Bool
  hasThemeTxt : Bool
deriving DecidableEq, Repr

/-- `add_theme`: check existence, reject duplicates, validate, append to
the playlist and persist. -/
def addTheme (p : AddPath) (st : TMState) (fs : FS) : ThemeOperation × TMState × FS :=
  if ¬ p.pathExists then (⟨false, .themePathDoesNotExist p.name⟩, st, fs)
  else if p.name ∈ st.playlist then (⟨false, .alreadyInPlaylist p.name⟩, st, fs)
  else if ¬ p.hasThemeTxt then (⟨false, .invalidThemeMissingThemeTxt⟩, st, fs)
  else
    let st' : TMState := ⟨st.playlist ++ [p.name], st.currentTheme⟩
    (⟨true, .addedToPlaylist p.name⟩, st', savePlaylist st' fs)

/-- `remove_theme`: remove the first occurrence from the playlist, clear
the in-memory current theme when it was the removed one, and persist. -/
def removeTheme (name : Str) (st : TMState) (fs : FS) : ThemeOperation × TMState × FS :=
  if ¬ (name ∈ st.playlist) then (⟨false, .notInPlaylist name⟩, st, fs)
  else
    let st' : TMState :=
      ⟨st.playlist.erase name,
       if st.currentTheme = some name then none else st.currentTheme⟩
    (⟨true, .removedFromPlaylist name⟩, st', savePlaylist st' fs)

/-- The selection step of `random_theme` (everything before the
`set_theme` call): choose among playlist entries different from the
current theme, falling back to the whole playlist, failing on an empty
playlist or a single unselectable entry. -/
def randomSelect (pl : List Str) (cur : Option Str) (k : Nat) : Except Msg Str :=
  if pl = [] then .error .playlistEmpty
  else
    let available := pl.filter (fun t => !(some t == cur))
    if available = [] then
      if pl.length = 1 then .error .onlyOneThemeInPlaylist
      else .ok (pyChoice k pl)
    else .ok (pyChoice k available)

/-- `random_theme`: pick a theme with `randomSelect`, then set it. -/
def randomTheme (k : Nat) (env : SetEnv) (st : TMState) (fs : FS) :
    ThemeOperation × TMState × FS :=
  match randomSelect st.playlist st.currentTheme k with
  | .error m => (⟨false, m⟩, st, fs)
  | .ok sel => setTheme sel env st fs

/-! ## Installer pipeline -/

/-- Environment of an archive extraction: whether the archive opens,
whether the process is root, whether `_find_theme_directory` locates a
theme subtree in the staged content, and whether the copied target passes
`Theme.is_valid`. -/
structure ArchiveEnv where
  opensOk : Bool
  isRoot : Bool
  foundTheme : Bool
  copiedValid : Bool
deriving DecidableEq, Repr

/-- The cleanup in the archive-extraction exception handlers:
`if target_dir.exists(): shutil.rmtree(target_dir, ignore_errors=True)`. -/
def cleanupTarget (name : Str) (fs : FS) : FS :=
  { fs with catalog := fs.catalog.erase name }

/-- `_extract_zip_theme`: stage, locate, copy, validate; on validation
failure delete the copied target; exceptions clean up and re-raise. -/
def extractZipTheme (name : Str) (env : ArchiveEnv) (fs : FS) :
    Except Exc ThemeOperation × FS :=
  if ¬ env.opensOk then (.error .archiveOpenError, cleanupTarget name fs)
  else if ¬ env.isRoot then (.error .permissionError, cleanupTarget name fs)
  else if ¬ env.foundTheme then (.ok ⟨false, .noValidThemeInZip⟩, fs)
  else if name ∈ fs.catalog then (.error .copyTreeError, cleanupTarget name fs)
  else
    let fs' := { fs with catalog := fs.catalog ++ [name] }
    if ¬ env.copiedValid then
      (.ok ⟨false, .extractedNotValidZip⟩, cleanupTarget name fs')
    else (.ok ⟨true, .themeInstalled name⟩, fs')

/-- `_extract_tar_theme`: same pipeline as the zip variant. -/
def extractTarTheme (name : Str) (env : ArchiveEnv) (fs : FS) :
    Except Exc ThemeOperation × FS :=
  if ¬ env.opensOk then (.error .archiveOpenError, cleanupTarget name fs)
  else if ¬ env.isRoot then (.error .permissionError, cleanupTarget name fs)
  else if ¬ env.foundTheme then (.ok ⟨false, .noValidThemeInTar⟩, fs)
  else if name ∈ fs.catalog then (.error .copyTreeError, cleanupTarget name fs)
  else
    let fs' := { fs with catalog := fs.catalog ++ [name] }
    if ¬ env.copiedValid then
      (.ok ⟨false, .extractedNotValidTar⟩, cleanupTarget name fs')
    else (.ok ⟨true, .themeInstalled name⟩, fs')

/-- `_copy_theme_directory`: validate the source directory, then copy it
into the catalog (root required); exceptions clean up and re-raise. -/
def copyThemeDirectory (srcValid : Bool) (isRoot : Bool) (name : Str) (fs : FS) :
    Except Exc ThemeOperation × FS :=
  if ¬ srcValid then (.ok ⟨false, .sourceDirNotValidTheme⟩, fs)
  else if ¬ isRoot then (.error .permissionError, cleanupTarget name fs)
  else if name ∈ fs.catalog then (.error .copyTreeError, cleanupTarget name fs)
  else (.ok ⟨true, .themeInstalled name⟩, { fs with catalog := fs.catalog ++ [name] })

/-- The `try`/`except` at the boundary of `install_theme_from_file`:
an escaped exception becomes a failure result. -/
def catchInstallExc : Except Exc ThemeOperation × FS → ThemeOperation × FS
  | (.ok op, fs) => (op, fs)
  | (.error _, fs) => (⟨false, .installFailed⟩, fs)

/-- The source argument of `install_theme_from_file`: the file name (final
path component), whether the path exists, and whether it is a directory. -/
structure InstallSrc where
  fileName : Str
  present : Bool
  isDir : Bool
deriving DecidableEq, Repr

/-- Environment of an install: the archive-extraction flags and the
validity of a directory source. -/
structure InstallEnv where
  arc : ArchiveEnv
  srcDirValid : Bool
deriving DecidableEq, Repr

/-- `install_theme_from_file`: resolve the theme name, reject an existing
catalog entry, and dispatch on the file type. -/
def installThemeFromFile (src : InstallSrc) (givenName : Option Str) (env : InstallEnv)
    (fs : FS) : ThemeOperation × FS :=
  if ¬ src.present then (⟨false, .fileDoesNotExist src.fileName⟩, fs)
  else
    let themeName :=
      match givenName with
      | some n => if n.isEmpty then extractThemeNameFromFile src.fileName else n
      | none => extractThemeNameFromFile src.fileName
    if themeName ∈ fs.catalog then (⟨false, .themeAlreadyExists themeName⟩, fs)
    else
      let fileSuffix := (pySuffix src.fileName).map Char.toLower
      let fileNameLower := src.fileName.map Char.toLower
      if fileSuffix = ".zip".toList then
        catchInstallExc (extractZipTheme themeName env.arc fs)
      else if fileSuffix = ".tar".toList ∨ fileSuffix = ".tgz".toList ∨
          ".tar.gz".toList.isSuffixOf fileNameLower then
        catchInstallExc (extractTarTheme themeName env.arc fs)
      else if src.isDir then
        catchInstallExc (copyThemeDirectory env.srcDirValid env.arc.isRoot themeName fs)
      else (⟨false, .unsupportedFileType (pySuffix src.fileName)⟩, fs)

/-- The URL argument of `install_theme_from_url`: the final component of
the URL path, whether the download succeeds, and the random base name of
the temporary download file. -/
structure UrlSrc where
  urlFileName : Str
  downloadOk : Bool
  tmpBase : Str
deriving DecidableEq, Repr

/-- `install_theme_from_url`: download to a temporary file whose name is
a random base plus the URL file name's suffix, then install from it. -/
def installThemeFromUrl (u : UrlSrc) (givenName : Option Str) (env : InstallEnv)
    (fs : FS) : ThemeOperation × FS :=
  let filename := if u.urlFileName.isEmpty then "theme.zip".toList else u.urlFileName
  if ¬ u.downloadOk then (⟨false, .urlInstallFailed⟩, fs)
  else installThemeFromFile ⟨u.tmpBase ++ pySuffix filename, true, false⟩ givenName env fs

/-! ## The mutating facade operations as one step function -/

/-- One mutating public operation of the Theme Manager facade. -/
inductive MutOp
  | add (p : AddPath)
  | remove (name : Str)
  | set (name : Str) (env : SetEnv)
  | random (k : Nat) (env : SetEnv)
  | installFile (src : InstallSrc) (givenName : Option Str) (env : InstallEnv)
  | installUrl (u : UrlSrc) (givenName : Option Str) (env : InstallEnv)

/-- Run one mutating facade operation. -/
def mutStep (op : MutOp) (st : TMState) (fs : FS) : ThemeOperation × TMState × FS :=
  match op with
  | .add p => addTheme p st fs
  | .remove n => removeTheme n st fs
  | .set n env => setTheme n env st fs
  | .random k env => randomTheme k env st fs
  | .installFile src g env =>
    ((installThemeFromFile src g env fs).1, st, (installThemeFromFile src g env fs).2)
  | .installUrl u g env =>
    ((installThemeFromUrl u g env fs).1, st, (installThemeFromUrl u g env fs).2)

/-- The playlist file holds exactly the persisted form of state `st`. -/
def persisted (st : TMState) (fs : FS) : Prop :=
  fs.playlistFile =
    .doc ⟨.strings st.playlist, getCurrentThemeFromGrub fs.grubConfig, fs.cwd⟩

instance (st : TMState) (fs : FS) : Decidable (persisted st fs) := by
  unfold persisted; infer_instance

/-! ## Helper lemmas -/

/-- Two suffixes of the same list with equal lengths are equal. -/
lemma suffix_eq_of_length {s₁ s₂ t : Str} (h₁ : s₁ <:+ t) (h₂ : s₂ <:+ t)
    (h : s₁.length = s₂.length) : s₁ = s₂ := by
  obtain ⟨u₁, rfl⟩ := h₁
  obtain ⟨u₂, hu⟩ := h₂
  exact ((List.append_inj' hu h.symm).2).symm

/-- `pyChoice` picks an element of a non-empty list. -/
lemma pyChoice_mem {l : List Str} (k : Nat) (h : l ≠ []) : pyChoice k l ∈ l := by
  have hlt : k % l.length < l.length :=
    Nat.mod_lt _ (List.length_pos.2 h)
  simp only [pyChoice, List.getD_eq_getElem?_getD, List.getElem?_eq_getElem hlt,
    Option.getD_some]
  exact List.getElem_mem hlt

/-! ## String-primitive lemmas -/

/-- Stripping leaves a list alone whose first and last characters are not
whitespace. -/
lemma pyStrip_eq_self (l : Str) (h1 : ∀ c, l.head? = some c → c.isWhitespace = false)
    (h2 : ∀ c, l.getLast? = some c → c.isWhitespace = false) :
    pyStrip l = l := by
  cases l with
  | nil => rfl
  | cons c m =>
    simp only [pyStrip]
    rw [List.dropWhile_cons_of_neg (by simp [h1 c rfl])]
    rcases hrev : (c :: m).reverse with _ | ⟨d, r⟩
    · exact absurd (congrArg List.length hrev) (by simp)
    · have hd : (c :: m).getLast? = some d := by
        rw [← List.head?_reverse, hrev]
        rfl
      rw [List.dropWhile_cons_of_neg (by simp [h2 d hd]), ← hrev, List.reverse_reverse]

/-- Quote-stripping a double-quoted value whose interior starts and ends
with non-quote characters yields the interior. -/
lemma pyStripQuotes_wrap (inner : Str)
    (h1 : ∀ c, inner.head? = some c → isQuoteCh c = false)
    (h2 : ∀ c, inner.getLast? = some c → isQuoteCh c = false) (hne : inner ≠ []) :
    pyStripQuotes ('"' :: (inner ++ ['"'])) = inner := by
  obtain ⟨c, m, rfl⟩ : ∃ c m, inner = c :: m := by
    cases inner with
    | nil => exact absurd rfl hne
    | cons c m => exact ⟨c, m, rfl⟩
  simp only [pyStripQuotes]
  rw [List.dropWhile_cons_of_pos (by decide)]
  rw [List.cons_append, List.dropWhile_cons_of_neg (by simp [h1 c rfl])]
  rw [show (c :: (m ++ ['"'])).reverse = '"' :: (c :: m).reverse by simp]
  rw [List.dropWhile_cons_of_pos (by decide)]
  rcases hrev : (c :: m).reverse with _ | ⟨d, r⟩
  · exact absurd (congrArg List.length hrev) (by simp)
  · have hd : (c :: m).getLast? = some d := by
      rw [← List.head?_reverse, hrev]
      rfl
    rw [List.dropWhile_cons_of_neg (by simp [h2 d hd]), ← hrev, List.reverse_reverse]

/-- Splitting after the first `=` of `a ++ '=' :: b` with no `=` in `a`
yields `b`. -/
lemma splitAfterFirst_eq_marker (a b : Str) (h : '=' ∉ a) :
    splitAfterFirst ['='] (a ++ '=' :: b) = some b := by
  induction a with
  | nil =>
    simp [splitAfterFirst, List.isPrefixOf]
  | cons c a ih =>
    have hc : ('=' == c) = false := by
      have hne : c ≠ '=' := fun hh => h (hh ▸ List.mem_cons_self _ _)
      exact beq_eq_false_iff_ne.2 (Ne.symm hne)
    rw [List.cons_append, splitAfterFirst, if_neg (by simp [List.isPrefixOf, hc])]
    exact ih fun hm => h (List.mem_cons.2 (Or.inr hm))

/-- A non-empty prefix occurrence makes the substring test succeed. -/
lemma containsSub_of_head_occ (pat s : Str) (hne : pat ≠ []) (h : pat <+: s) :
    containsSub pat s = true := by
  cases s with
  | nil =>
    exact absurd (List.prefix_nil.1 h) hne
  | cons c rest =>
    simp [containsSub]
    left
    exact h

/-! ## `pyReplace` lemmas -/

/-- The worker maps the empty list to itself at any fuel. -/
lemma pyReplaceAux_nil (old new : Str) (fuel : Nat) :
    pyReplaceAux old new fuel [] = [] := by
  cases fuel <;> rfl

/-- When the pattern occurs nowhere in `s`, replacement is the identity. -/
lemma pyReplaceAux_no_occ (old new : Str) :
    ∀ (fuel : Nat) (s : Str), s.length ≤ fuel → ¬ old <:+: s →
      pyReplaceAux old new fuel s = s := by
  intro fuel
  induction fuel with
  | zero =>
    intro s hs _
    rw [List.eq_nil_of_length_eq_zero (Nat.le_zero.1 hs)]
    rfl
  | succ f ih =>
    intro s hs hinf
    match s with
    | [] => rfl
    | c :: rest =>
      have hpre : ¬ old.isPrefixOf (c :: rest) = true := by
        rw [List.isPrefixOf_iff_prefix]
        exact fun hp => hinf hp.isInfix
      simp only [pyReplaceAux, if_neg hpre]
      have hlen : rest.length ≤ f := by
        simp only [List.length_cons] at hs
        omega
      rw [ih rest hlen fun hr => hinf (List.infix_cons hr)]

/-- A pattern occurrence at the head is replaced and the scan continues
after it. -/
lemma pyReplaceAux_head_occ (old new : Str) (hold : old ≠ []) (f : Nat) (l : Str) :
    pyReplaceAux old new (f + 1) (old ++ l) =
      new ++ pyReplaceAux old new f l := by
  obtain ⟨o, ot, rfl⟩ : ∃ o ot, old = o :: ot := by
    cases old with
    | nil => exact absurd rfl hold
    | cons o ot => exact ⟨o, ot, rfl⟩
  have hpre : (o :: ot).isPrefixOf (o :: (ot ++ l)) = true := by
    rw [← List.cons_append]
    exact List.isPrefixOf_iff_prefix.2 (List.prefix_append _ _)
  rw [List.cons_append]
  simp only [pyReplaceAux, if_pos hpre]
  congr 2
  exact List.drop_left' (by simp)

/-- A single pattern occurrence at the very end of `T ++ old` is replaced,
provided the pattern has no non-trivial border and no occurrence in `T`. -/
lemma pyReplaceAux_tail_occ (old new : Str) (hold : old ≠ [])
    (hnb : ∀ k, 0 < k → k < old.length → old.drop (old.length - k) ≠ old.take k) :
    ∀ (fuel : Nat) (T : Str), (T ++ old).length ≤ fuel → ¬ old <:+: T →
      pyReplaceAux old new fuel (T ++ old) = T ++ new := by
  intro fuel
  induction fuel with
  | zero =>
    intro T hlen _
    exfalso
    have h1 : 0 < old.length := List.length_pos.2 hold
    rw [List.length_append] at hlen
    omega
  | succ f ih =>
    intro T hlen hinf
    match T with
    | [] =>
      rw [List.nil_append,
        show pyReplaceAux old new (f + 1) old
            = pyReplaceAux old new (f + 1) (old ++ []) by rw [List.append_nil],
        pyReplaceAux_head_occ old new hold, pyReplaceAux_nil]
      simp
    | c :: T' =>
      have hpre : ¬ old.isPrefixOf (c :: (T' ++ old)) = true := by
        rw [List.isPrefixOf_iff_prefix, ← List.cons_append]
        rintro ⟨r, hr⟩
        rcases List.append_eq_append_iff.1 hr with ⟨a', ha1, _⟩ | ⟨c'', hc1, hc2⟩
        · exact hinf ⟨[], a', by simpa using ha1.symm⟩
        · by_cases hc'' : c'' = []
          · subst hc''
            rw [List.append_nil] at hc1
            refine hinf ?_
            rw [hc1]
          · have hk0 : 0 < c''.length := List.length_pos.2 hc''
            have hlen1 := congrArg List.length hc1
            simp only [List.length_append, List.length_cons] at hlen1
            have hklt : c''.length < old.length := by omega
            have hdrop0 : old.drop (c :: T').length = c'' := by
              rw [hc1]
              exact List.drop_left _ _
            have hdrop : old.drop (old.length - c''.length) = c'' := by
              rw [show old.length - c''.length = (c :: T').length by
                simp only [List.length_cons]; omega]
              exact hdrop0
            have htake : old.take c''.length = c'' := by
              conv_lhs => rw [hc2]
              exact List.take_left' rfl
            exact hnb c''.length hk0 hklt (hdrop.trans htake.symm)
      have hlen' : (T' ++ old).length ≤ f := by
        simp only [List.cons_append, List.length_cons, List.length_append] at hlen
        simp only [List.length_append]
        omega
      rw [List.cons_append]
      simp only [pyReplaceAux, if_neg hpre]
      rw [ih T' hlen' fun hr => hinf (List.infix_cons hr)]
      rfl

/-! ## Occurrence analysis for the directive path -/

/-- When the theme name does not contain the bare catalog marker
`usr/share/grub/themes`, the catalog root occurs nowhere in
`T ++ /theme.txt` (in particular no occurrence splices across the
boundary between the name and the descriptor tail). -/
lemma catalogRoot_absent_in_tail (T : Str) (h21 : ¬ catalogMarker <:+: T) :
    ¬ catalogRoot <:+: (T ++ descTail) := by
  rintro ⟨s, t, hst⟩
  rw [List.append_assoc] at hst
  have h23 : catalogRoot.length = 23 := by decide
  have h10 : descTail.length = 10 := by decide
  rcases List.append_eq_append_iff.1 hst with ⟨a', ha1, ha2⟩ | ⟨c', _, hc2⟩
  · rcases List.append_eq_append_iff.1 ha2 with ⟨b', hb1, _⟩ | ⟨d', hd1, hd2⟩
    · refine h21 ?_
      have hsub : catalogMarker <:+: catalogRoot := by decide
      refine hsub.trans ⟨s, b', ?_⟩
      rw [ha1, hb1, List.append_assoc]
    · have hdlen := congrArg List.length hd1
      rw [List.length_append, h23] at hdlen
      have hdpre : d' <+: descTail := ⟨t, hd2.symm⟩
      have hdd : d' = catalogRoot.drop a'.length := by
        rw [hd1]
        exact (List.drop_left _ _).symm
      have hkey : ∀ k, k < 24 → (catalogRoot.drop k).isPrefixOf descTail = true →
          k = 22 ∨ k = 23 := by decide
      have hpreb : (catalogRoot.drop a'.length).isPrefixOf descTail = true := by
        rw [List.isPrefixOf_iff_prefix, ← hdd]
        exact hdpre
      rcases hkey a'.length (by omega) hpreb with hk | hk
      · have ha' : a' = catalogRoot.take 22 := by
          rw [← hk, hd1]
          exact (List.take_left _ _).symm
        refine h21 ?_
        have hmk : catalogMarker <:+: catalogRoot.take 22 := by decide
        refine hmk.trans ⟨s, [], ?_⟩
        rw [List.append_nil, ha1, ha']
      · have hd'nil : d' = [] := List.eq_nil_of_length_eq_zero (by omega)
        have ha' : a' = catalogRoot := by rw [hd1, hd'nil, List.append_nil]
        refine h21 ?_
        have hsub : catalogMarker <:+: catalogRoot := by decide
        refine hsub.trans ⟨s, [], ?_⟩
        rw [List.append_nil, ha1, ha']
  · have hlen := congrArg List.length hc2
    rw [List.length_append, List.length_append, h10, h23] at hlen
    omega

/-- The descriptor tail `/theme.txt` has no non-trivial border, so no
occurrence of it can splice across a concatenation boundary. -/
lemma descTail_border_free :
    ∀ k, 0 < k → k < descTail.length →
      descTail.drop (descTail.length - k) ≠ descTail.take k := by
  have h : ∀ k, k < descTail.length → 0 < k →
      descTail.drop (descTail.length - k) ≠ descTail.take k := by decide
  exact fun k h1 h2 => h k h2 h1

/-! ## The well-formed directive line parses back to its theme name -/

/-- The inner value written between the quotes. -/
lemma themeLine_decomp (T : Str) :
    themeLine T =
      ("GRUB_THEME".toList ++ ['=']) ++
        ('"' :: ((catalogRoot ++ (T ++ descTail)) ++ ['"'])) := by
  have h1 : "GRUB_THEME=\"/usr/share/grub/themes/".toList =
      ("GRUB_THEME".toList ++ ['=']) ++ '"' :: catalogRoot := by decide
  have h2 : "/theme.txt\"".toList = descTail ++ ['"'] := by decide
  rw [themeLine, h1, h2]
  simp [List.append_assoc]

/-- Parsing the line written by `_update_grub_config` recovers the theme
name, whenever the name is non-empty, does not contain the bare catalog
marker, and does not contain the descriptor tail. -/
lemma parse_themeLine (T : Str) (hne : T ≠ []) (h21 : ¬ catalogMarker <:+: T)
    (hD : ¬ descTail <:+: T) :
    parseGrubThemeLine (themeLine T) = some T := by
  have h23 : catalogRoot.length = 23 := by decide
  set inner : Str := catalogRoot ++ (T ++ descTail) with hinner
  set val : Str := '"' :: (inner ++ ['"']) with hvalDef
  have hkey : themeLine T = grubThemeKey ++ val := by
    rw [themeLine_decomp]
    rw [show ("GRUB_THEME".toList ++ ['='] : Str) = grubThemeKey from by decide]
  have hstrip : pyStrip (themeLine T) = themeLine T := by
    refine pyStrip_eq_self _ ?_ ?_
    · intro c hc
      rw [hkey] at hc
      rw [show (grubThemeKey ++ val : Str).head? = some 'G' from rfl] at hc
      cases hc
      decide
    · intro c hc
      rw [hkey, hvalDef] at hc
      rw [show (grubThemeKey ++ '"' :: (inner ++ ['"']) : Str)
          = (grubThemeKey ++ '"' :: inner) ++ ['"'] from by simp] at hc
      rw [List.getLast?_concat] at hc
      cases hc
      decide
  have hkeypre : grubThemeKey.isPrefixOf (themeLine T) = true := by
    rw [hkey]
    exact List.isPrefixOf_iff_prefix.2 (List.prefix_append _ _)
  have hhash : (['#'] : Str).isPrefixOf (themeLine T) = false := by
    rw [hkey]
    rw [show (grubThemeKey ++ val : Str) = 'G' :: ("RUB_THEME=".toList ++ val) from rfl]
    have hgc : ('#' == 'G') = false := by decide
    simp [List.isPrefixOf, hgc]
  have hsplit : splitAfterFirst ['='] (themeLine T) = some val := by
    rw [hkey]
    rw [show (grubThemeKey ++ val : Str) = "GRUB_THEME".toList ++ '=' :: val from by
      rw [show (grubThemeKey : Str) = "GRUB_THEME".toList ++ ['='] from by decide]
      simp]
    exact splitAfterFirst_eq_marker _ _ (by decide)
  have hihead : inner.head? = some '/' := by rw [hinner]; rfl
  have hilast : inner.getLast? = some 't' := by
    rw [hinner]
    have hdt : descTail.getLast? = some 't' := by decide
    simp [hdt]
  have hineq : inner ≠ [] := by
    intro h
    rw [h] at hihead
    cases hihead
  have hstripq : pyStripQuotes val = inner := by
    rw [hvalDef]
    refine pyStripQuotes_wrap inner ?_ ?_ hineq
    · intro c hc
      rw [hihead] at hc
      cases hc
      decide
    · intro c hc
      rw [hilast] at hc
      cases hc
      decide
  have hcont : containsSub catalogRoot inner = true := by
    rw [hinner]
    exact containsSub_of_head_occ _ _ (by decide) (List.prefix_append _ _)
  have hrepl1 : pyReplace inner catalogRoot [] = T ++ descTail := by
    rw [pyReplace, hinner,
      show (catalogRoot ++ (T ++ descTail)).length = (22 + (T ++ descTail).length) + 1 by
        rw [List.length_append, h23]; omega,
      pyReplaceAux_head_occ catalogRoot [] (by decide),
      pyReplaceAux_no_occ catalogRoot [] _ _ (Nat.le_add_left _ _)
        (catalogRoot_absent_in_tail T h21)]
    rfl
  have hrepl2 : pyReplace (T ++ descTail) descTail [] = T := by
    rw [pyReplace]
    rw [pyReplaceAux_tail_occ descTail [] (by decide) descTail_border_free
      ((T ++ descTail).length) T (Nat.le_refl _) hD]
    exact List.append_nil T
  have hTne : T.isEmpty = false := by
    cases T with
    | nil => exact absurd rfl hne
    | cons a b => rfl
  simp only [parseGrubThemeLine, hstrip, hkeypre, hhash, Bool.not_false, Bool.and_self,
    if_true, hsplit, hstripq, hcont, hrepl1, hrepl2, hTne, Bool.false_eq_true, if_false]

/-! ## Claim theorems: name resolution (C8) -/

/-- Claim C8: theme-name resolution strips the compound archive extensions
`.tar.gz`, `.tar.bz2` and `.tar.xz` whole, and otherwise returns the
Python stem of the file name (only the final suffix removed). -/
theorem extract_theme_name_spec :
    (∀ base : Str, extractThemeNameFromFile (base ++ ".tar.gz".toList) = base) ∧
    (∀ base : Str, extractThemeNameFromFile (base ++ ".tar.bz2".toList) = base) ∧
    (∀ base : Str, extractThemeNameFromFile (base ++ ".tar.xz".toList) = base) ∧
    (∀ fn : Str, ".tar.gz".toList.isSuffixOf fn = false →
      ".tar.bz2".toList.isSuffixOf fn = false →
      ".tar.xz".toList.isSuffixOf fn = false →
      extractThemeNameFromFile fn = pyStem fn) := by
  refine ⟨?_, ?_, ?_, ?_⟩
  · intro base
    have h1 : ".tar.gz".toList.isSuffixOf (base ++ ".tar.gz".toList) = true := by
      rw [List.isSuffixOf_iff_suffix]; exact List.suffix_append _ _
    simp only [extractThemeNameFromFile, h1, if_true]
    rw [List.length_append]
    exact List.take_left' rfl
  · intro base
    have h1 : ".tar.gz".toList.isSuffixOf (base ++ ".tar.bz2".toList) = false := by
      rw [Bool.eq_false_iff]
      intro h
      rw [List.isSuffixOf_iff_suffix] at h
      have h2 : "tar.bz2".toList <:+ base ++ ".tar.bz2".toList :=
        List.IsSuffix.trans (by decide) (List.suffix_append _ _)
      have := suffix_eq_of_length h h2 (by decide)
      exact absurd this (by decide)
    have h2 : ".tar.bz2".toList.isSuffixOf (base ++ ".tar.bz2".toList) = true := by
      rw [List.isSuffixOf_iff_suffix]; exact List.suffix_append _ _
    simp only [extractThemeNameFromFile, h1, h2, Bool.false_eq_true, if_false, if_true]
    rw [List.length_append]
    exact List.take_left' rfl
  · intro base
    have h1 : ".tar.gz".toList.isSuffixOf (base ++ ".tar.xz".toList) = false := by
      rw [Bool.eq_false_iff]
      intro h
      rw [List.isSuffixOf_iff_suffix] at h
      have h2 : "tar.xz".toList <:+ base ++ ".tar.xz".toList :=
        List.IsSuffix.trans (by decide) (List.suffix_append _ _)
      have h3 : ".tar.gz".toList.drop 1 <:+ base ++ ".tar.xz".toList := by
        refine List.IsSuffix.trans ?_ h
        decide
      have := suffix_eq_of_length h3 h2 (by decide)
      exact absurd this (by decide)
    have h1' : ".tar.bz2".toList.isSuffixOf (base ++ ".tar.xz".toList) = false := by
      rw [Bool.eq_false_iff]
      intro h
      rw [List.isSuffixOf_iff_suffix] at h
      have h2 : ".tar.xz".toList <:+ base ++ ".tar.xz".toList := List.suffix_append _ _
      have h3 : ".tar.bz2".toList.drop 1 <:+ base ++ ".tar.xz".toList := by
        refine List.IsSuffix.trans ?_ h
        decide
      have := suffix_eq_of_length h3 h2 (by decide)
      exact absurd this (by decide)
    have h2 : ".tar.xz".toList.isSuffixOf (base ++ ".tar.xz".toList) = true := by
      rw [List.isSuffixOf_iff_suffix]; exact List.suffix_append _ _
    simp only [extractThemeNameFromFile, h1, h1', h2, Bool.false_eq_true, if_false, if_true]
    rw [List.length_append]
    exact List.take_left' rfl
  · intro fn hgz hbz hxz
    simp only [extractThemeNameFromFile, hgz, hbz, hxz, Bool.false_eq_true, if_false]

/-- Witness for C8 at concrete inputs: `nord.tar.gz` resolves to `nord`
and `nord.zip` resolves to its stem `nord`. -/
theorem extract_theme_name_spec_witness :
    extractThemeNameFromFile ("nord".toList ++ ".tar.gz".toList) = "nord".toList ∧
    extractThemeNameFromFile "nord.zip".toList = pyStem "nord.zip".toList ∧
    pyStem "nord.zip".toList = "nord".toList :=
  ⟨extract_theme_name_spec.1 "nord".toList,
   extract_theme_name_spec.2.2.2 "nord.zip".toList (by decide) (by decide) (by decide),
   by decide⟩

/-! ## Claim theorems: playlist persistence round-trip (C9) -/

/-- Claim C9: saving the in-memory playlist and then loading the same
store yields the identical ordered list of names, whatever the playlist
file held before and whatever the boot config contains. -/
theorem playlist_save_load_roundtrip (st : TMState) (fs : FS) :
    (loadPlaylist (savePlaylist st fs)).1 = st.playlist := rfl

/-! ## Claim theorems: remove_theme (C10) -/

/-- Claim C10: removing a playlist member succeeds, deletes exactly that
occurrence preserving the order of the rest, clears the in-memory current
theme when it was the removed name, and leaves it unchanged otherwise. -/
theorem remove_theme_spec (st : TMState) (fs : FS) (n : Str) (l₁ l₂ : List Str)
    (hpl : st.playlist = l₁ ++ n :: l₂) (hn : n ∉ l₁) :
    (removeTheme n st fs).1.success = true ∧
    (removeTheme n st fs).2.1.playlist = l₁ ++ l₂ ∧
    (removeTheme n st fs).2.1.currentTheme =
      (if st.currentTheme = some n then none else st.currentTheme) := by
  have hmem : n ∈ st.playlist := by
    rw [hpl]; exact List.mem_append_right _ (List.mem_cons_self _ _)
  simp only [removeTheme, if_neg (not_not_intro hmem)]
  refine ⟨trivial, ?_, trivial⟩
  rw [hpl, List.erase_append_right _ hn, List.erase_cons_head]

/-- Witness for C10: removing `b` from playlist `[a, b]` with current
theme `b` succeeds, leaves `[a]`, and clears the current theme. -/
theorem remove_theme_spec_witness :
    (removeTheme "b".toList ⟨["a".toList, "b".toList], some "b".toList⟩
        ⟨none, .missing, [], []⟩).1.success = true ∧
    (removeTheme "b".toList ⟨["a".toList, "b".toList], some "b".toList⟩
        ⟨none, .missing, [], []⟩).2.1.playlist = ["a".toList] ++ [] ∧
    (removeTheme "b".toList ⟨["a".toList, "b".toList], some "b".toList⟩
        ⟨none, .missing, [], []⟩).2.1.currentTheme =
      (if (some "b".toList : Option Str) = some "b".toList then none
       else some "b".toList) :=
  remove_theme_spec ⟨["a".toList, "b".toList], some "b".toList⟩
    ⟨none, .missing, [], []⟩ "b".toList ["a".toList] [] (by decide) (by decide)

/-! ## Claim theorems: duplicate add (C7) -/

/-- Counterexample to C7 as stated: when the path whose final component is
the duplicate name does not exist on disk, `add_theme` fails with the
path-does-not-exist message, not the already-in-playlist message (the
existence check runs first). -/
theorem add_theme_duplicate_cex :
    "nord".toList ∈ (⟨["nord".toList], none⟩ : TMState).playlist ∧
    (addTheme ⟨"nord".toList, false, true⟩ ⟨["nord".toList], none⟩
        ⟨none, .missing, [], []⟩).1.message =
      .themePathDoesNotExist "nord".toList ∧
    (addTheme ⟨"nord".toList, false, true⟩ ⟨["nord".toList], none⟩
        ⟨none, .missing, [], []⟩).1.message ≠
      .alreadyInPlaylist "nord".toList := by
  decide

/-- Claim C7 (amended: the path must exist on disk, since `add_theme`
checks existence before membership): adding a path whose final component
is already in the playlist fails with the already-in-playlist message and
changes neither the in-memory state nor the file system. -/
theorem add_theme_duplicate_spec (st : TMState) (fs : FS) (p : AddPath)
    (hmem : p.name ∈ st.playlist) (hex : p.pathExists = true) :
    (addTheme p st fs).1.success = false ∧
    (addTheme p st fs).1.message = .alreadyInPlaylist p.name ∧
    (addTheme p st fs).2.1 = st ∧ (addTheme p st fs).2.2 = fs := by
  have h1 : ¬ ¬ p.pathExists = true := not_not_intro hex
  simp only [addTheme, if_neg h1, if_pos hmem]
  exact ⟨trivial, trivial, trivial, trivial⟩

/-- Witness for C7: re-adding `nord` to a playlist already holding it
(with an existing path) is rejected without any state change. -/
theorem add_theme_duplicate_spec_witness :
    (addTheme ⟨"nord".toList, true, true⟩ ⟨["nord".toList], none⟩
        ⟨none, .missing, [], []⟩).1.success = false ∧
    (addTheme ⟨"nord".toList, true, true⟩ ⟨["nord".toList], none⟩
        ⟨none, .missing, [], []⟩).1.message = .alreadyInPlaylist "nord".toList ∧
    (addTheme ⟨"nord".toList, true, true⟩ ⟨["nord".toList], none⟩
        ⟨none, .missing, [], []⟩).2.1 = ⟨["nord".toList], none⟩ ∧
    (addTheme ⟨"nord".toList, true, true⟩ ⟨["nord".toList], none⟩
        ⟨none, .missing, [], []⟩).2.2 = ⟨none, .missing, [], []⟩ :=
  add_theme_duplicate_spec ⟨["nord".toList], none⟩ ⟨none, .missing, [], []⟩
    ⟨"nord".toList, true, true⟩ (by decide) (by decide)

/-! ## Claim theorems: random selection (C6) -/

/-- Claim C6: on a duplicate-free playlist of size at least two the
selection step never picks the pre-call current theme; `random_theme`
fails on an empty playlist, and fails when the single playlist entry is
the current theme. -/
theorem random_theme_spec :
    (∀ (pl : List Str) (cur : Option Str) (k : Nat), 2 ≤ pl.length → pl.Nodup →
      ∃ sel, randomSelect pl cur k = .ok sel ∧ some sel ≠ cur) ∧
    (∀ (k : Nat) (env : SetEnv) (st : TMState) (fs : FS), st.playlist = [] →
      randomTheme k env st fs = (⟨false, .playlistEmpty⟩, st, fs)) ∧
    (∀ (k : Nat) (env : SetEnv) (st : TMState) (fs : FS) (c : Str),
      st.playlist = [c] → st.currentTheme = some c →
      randomTheme k env st fs = (⟨false, .onlyOneThemeInPlaylist⟩, st, fs)) := by
  refine ⟨?_, ?_, ?_⟩
  · intro pl cur k h2 hnd
    have hne : pl ≠ [] := by
      intro h; rw [h] at h2; exact absurd h2 (by decide)
    simp only [randomSelect, if_neg hne]
    by_cases hav : pl.filter (fun t => !(some t == cur)) = []
    · exfalso
      have hall : ∀ t ∈ pl, some t = cur := by
        intro t ht
        have := List.filter_eq_nil_iff.1 hav t ht
        simpa using this
      match pl, h2 with
      | a :: b :: tl, _ =>
        have ha := hall a (List.mem_cons_self _ _)
        have hb := hall b (List.mem_cons.2 (Or.inr (List.mem_cons_self _ _)))
        have hab : a = b := by
          have := ha.trans hb.symm
          exact Option.some_injective _ this
        have := (List.nodup_cons.1 hnd).1
        exact this (hab ▸ List.mem_cons_self _ _)
    · rw [if_neg hav]
      refine ⟨pyChoice k (pl.filter (fun t => !(some t == cur))), rfl, ?_⟩
      have hmem := pyChoice_mem k hav
      have := (List.mem_filter.1 hmem).2
      simpa using this
  · intro k env st fs h
    simp [randomTheme, randomSelect, h]
  · intro k env st fs c hpl hcur
    have hfil : (st.playlist.filter (fun t => !(some t == st.currentTheme))) = [] := by
      rw [hpl, hcur]; simp
    simp [randomTheme, randomSelect, hpl, hcur] at hfil ⊢

/-- Witness for C6 at concrete inputs: on playlist `[a, b]` with current
theme `a` some alternative is selected; empty and single-current playlists
fail. -/
theorem random_theme_spec_witness :
    (∃ sel, randomSelect ["a".toList, "b".toList] (some "a".toList) 0 = .ok sel ∧
      some sel ≠ some "a".toList) ∧
    randomTheme 0 ⟨true, true, .unknown, false, fun _ => .notFound⟩ ⟨[], none⟩
      ⟨none, .missing, [], []⟩ =
      (⟨false, .playlistEmpty⟩, ⟨[], none⟩, ⟨none, .missing, [], []⟩) ∧
    randomTheme 0 ⟨true, true, .unknown, false, fun _ => .notFound⟩
      ⟨["a".toList], some "a".toList⟩ ⟨none, .missing, [], []⟩ =
      (⟨false, .onlyOneThemeInPlaylist⟩, ⟨["a".toList], some "a".toList⟩,
       ⟨none, .missing, [], []⟩) :=
  ⟨random_theme_spec.1 ["a".toList, "b".toList] (some "a".toList) 0
      (by decide) (by decide),
   random_theme_spec.2.1 0 ⟨true, true, .unknown, false, fun _ => .notFound⟩
      ⟨[], none⟩ ⟨none, .missing, [], []⟩ rfl,
   random_theme_spec.2.2 0 ⟨true, true, .unknown, false, fun _ => .notFound⟩
      ⟨["a".toList], some "a".toList⟩ ⟨none, .missing, [], []⟩ "a".toList rfl rfl⟩

/-! ## Claim theorems: install rollback (C5) -/

/-- Claim C5: in an archive install (zip or tar) where the located theme
subtree was copied into the catalog but post-copy validation fails, the
operation returns a failure result and the target catalog directory does
not exist after the call. -/
theorem archive_install_rollback (name : Str) (fs : FS) (hname : name ∉ fs.catalog) :
    ((extractZipTheme name ⟨true, true, true, false⟩ fs).1 =
        .ok ⟨false, .extractedNotValidZip⟩ ∧
      name ∉ (extractZipTheme name ⟨true, true, true, false⟩ fs).2.catalog) ∧
    ((extractTarTheme name ⟨true, true, true, false⟩ fs).1 =
        .ok ⟨false, .extractedNotValidTar⟩ ∧
      name ∉ (extractTarTheme name ⟨true, true, true, false⟩ fs).2.catalog) := by
  have herase : (fs.catalog ++ [name]).erase name = fs.catalog := by
    rw [List.erase_append_right _ hname, List.erase_cons_head, List.append_nil]
  constructor
  · constructor
    · simp [extractZipTheme, hname]
    · simp only [extractZipTheme, cleanupTarget]
      simp only [Bool.not_true, Bool.false_eq_true, if_false, if_neg hname,
        Bool.not_false, if_true]
      simpa [herase] using hname
  · constructor
    · simp [extractTarTheme, hname]
    · simp only [extractTarTheme, cleanupTarget]
      simp only [Bool.not_true, Bool.false_eq_true, if_false, if_neg hname,
        Bool.not_false, if_true]
      simpa [herase] using hname

/-- Witness for C5: installing `nord` into an empty catalog with failing
post-copy validation leaves no `nord` entry and fails. -/
theorem archive_install_rollback_witness :
    ((extractZipTheme "nord".toList ⟨true, true, true, false⟩ ⟨none, .missing, [], []⟩).1 =
        .ok ⟨false, .extractedNotValidZip⟩ ∧
      "nord".toList ∉
        (extractZipTheme "nord".toList ⟨true, true, true, false⟩
          ⟨none, .missing, [], []⟩).2.catalog) ∧
    ((extractTarTheme "nord".toList ⟨true, true, true, false⟩ ⟨none, .missing, [], []⟩).1 =
        .ok ⟨false, .extractedNotValidTar⟩ ∧
      "nord".toList ∉
        (extractTarTheme "nord".toList ⟨true, true, true, false⟩
          ⟨none, .missing, [], []⟩).2.catalog) :=
  archive_install_rollback "nord".toList ⟨none, .missing, [], []⟩ (by decide)

/-! ## Claim theorems: regeneration candidate loop (C4) -/

/-- A failed candidate (non-zero exit, missing binary, timeout, or raised
error) makes the loop continue with the recorded error. -/
lemma runUpdateCommands_step_fail (run : Cmd → CmdOutcome) (cmd : Cmd) (rest : List Cmd)
    (last : Option LastError) (h : isCmdSuccess (run cmd) = false) :
    runUpdateCommands run (cmd :: rest) last =
      runUpdateCommands run rest (some (errOf cmd (run cmd))) := by
  rcases hoc : run cmd with code | _ | _ | e
  · have hcode : ¬ code = 0 := by
      simp [isCmdSuccess, hoc] at h
      exact h
    simp [runUpdateCommands, hoc, hcode, errOf]
  · simp [runUpdateCommands, hoc, errOf]
  · simp [runUpdateCommands, hoc, errOf]
  · simp [runUpdateCommands, hoc, errOf]

/-- A successful candidate (exit code 0) short-circuits the loop. -/
lemma runUpdateCommands_step_succ (run : Cmd → CmdOutcome) (cmd : Cmd) (rest : List Cmd)
    (last : Option LastError) (h : isCmdSuccess (run cmd) = true) :
    runUpdateCommands run (cmd :: rest) last = ⟨true, .grubConfigUpdated (cmd.headD [])⟩ := by
  rcases hoc : run cmd with code | _ | _ | e
  · have hcode : code = 0 := by
      simp [isCmdSuccess, hoc] at h
      exact h
    simp [runUpdateCommands, hoc, hcode]
  all_goals simp [isCmdSuccess, hoc] at h

/-- After a run of failing candidates, the first succeeding candidate
determines the (successful) result. -/
lemma runUpdateCommands_first_success (run : Cmd → CmdOutcome) (pre : List Cmd)
    (cmd : Cmd) (post : List Cmd) (last : Option LastError)
    (hpre : ∀ c ∈ pre, isCmdSuccess (run c) = false) (h : isCmdSuccess (run cmd) = true) :
    runUpdateCommands run (pre ++ cmd :: post) last =
      ⟨true, .grubConfigUpdated (cmd.headD [])⟩ := by
  induction pre generalizing last with
  | nil => exact runUpdateCommands_step_succ run cmd post last h
  | cons p pre ih =>
    rw [List.cons_append,
      runUpdateCommands_step_fail run p _ last (hpre p (List.mem_cons_self _ _))]
    exact ih _ fun c hc => hpre c (List.mem_cons.2 (Or.inr hc))

/-- When every candidate fails, the loop fails carrying the error of the
last candidate. -/
lemma runUpdateCommands_all_fail (run : Cmd → CmdOutcome) (init : List Cmd) (cmd : Cmd)
    (last : Option LastError)
    (hall : ∀ c ∈ init ++ [cmd], isCmdSuccess (run c) = false) :
    runUpdateCommands run (init ++ [cmd]) last =
      ⟨false, .allUpdateCommandsFailed (some (errOf cmd (run cmd)))⟩ := by
  induction init generalizing last with
  | nil =>
    rw [List.nil_append,
      runUpdateCommands_step_fail run cmd [] last (hall cmd (by simp))]
    rfl
  | cons p init ih =>
    rw [List.cons_append,
      runUpdateCommands_step_fail run p _ last (hall p (List.mem_cons_self _ _))]
    exact ih _ fun c hc => hall c (List.mem_cons.2 (Or.inr hc))

/-- Claim C4: the candidate loop tries the commands in order: the first
candidate with exit code 0 short-circuits and the result names it; a
missing binary, a timeout, or a non-zero exit each count as a failed
candidate and iteration continues with the recorded error; exhausting the
list fails with the last candidate's error; in particular a non-zero first
candidate followed by a zero-exit second one yields success naming the
second. -/
theorem regen_loop_spec :
    (∀ (run : Cmd → CmdOutcome) (pre : List Cmd) (cmd : Cmd) (post : List Cmd),
      (∀ c ∈ pre, isCmdSuccess (run c) = false) → isCmdSuccess (run cmd) = true →
      runUpdateCommands run (pre ++ cmd :: post) none =
        ⟨true, .grubConfigUpdated (cmd.headD [])⟩) ∧
    (∀ (run : Cmd → CmdOutcome) (cmd : Cmd) (rest : List Cmd) (last : Option LastError),
      isCmdSuccess (run cmd) = false →
      runUpdateCommands run (cmd :: rest) last =
        runUpdateCommands run rest (some (errOf cmd (run cmd)))) ∧
    (∀ (run : Cmd → CmdOutcome) (init : List Cmd) (cmd : Cmd),
      (∀ c ∈ init ++ [cmd], isCmdSuccess (run c) = false) →
      runUpdateCommands run (init ++ [cmd]) none =
        ⟨false, .allUpdateCommandsFailed (some (errOf cmd (run cmd)))⟩) ∧
    (∀ (run : Cmd → CmdOutcome) (c₁ c₂ : Cmd) (rest : List Cmd) (code : Int)
        (stderr s₂ : Str), code ≠ 0 → run c₁ = .exited code stderr →
      run c₂ = .exited 0 s₂ →
      runUpdateCommands run (c₁ :: c₂ :: rest) none =
        ⟨true, .grubConfigUpdated (c₂.headD [])⟩) := by
  refine ⟨?_, ?_, ?_, ?_⟩
  · intro run pre cmd post hpre h
    exact runUpdateCommands_first_success run pre cmd post none hpre h
  · intro run cmd rest last h
    exact runUpdateCommands_step_fail run cmd rest last h
  · intro run init cmd hall
    exact runUpdateCommands_all_fail run init cmd none hall
  · intro run c₁ c₂ rest code stderr s₂ hcode h₁ h₂
    rw [runUpdateCommands_step_fail run c₁ _ none (by simp [isCmdSuccess, h₁, hcode])]
    exact runUpdateCommands_step_succ run c₂ rest _ (by simp [isCmdSuccess, h₂])

/-- Witness for C4: with `update-grub` exiting 1 and `grub-mkconfig`
exiting 0, the loop succeeds naming `grub-mkconfig`. -/
theorem regen_loop_spec_witness :
    runUpdateCommands
        (fun c => if c.headD [] = "update-grub".toList then .exited 1 "boom".toList
                  else .exited 0 [])
        (["update-grub".toList] :: ["grub-mkconfig".toList] :: []) none =
      ⟨true, .grubConfigUpdated "grub-mkconfig".toList⟩ :=
  regen_loop_spec.2.2.2
    (fun c => if c.headD [] = "update-grub".toList then .exited 1 "boom".toList
              else .exited 0 [])
    ["update-grub".toList] ["grub-mkconfig".toList] [] 1 "boom".toList []
    (by decide) (by decide) (by decide)

/-! ## Claim theorems: persistence of mutating operations (C2) -/

/-- Saving persists exactly the saved in-memory state. -/
lemma persisted_save (st : TMState) (fs : FS) : persisted st (savePlaylist st fs) := rfl

/-- The rollback cleanup never touches the playlist file. -/
lemma cleanupTarget_playlistFile (n : Str) (fs : FS) :
    (cleanupTarget n fs).playlistFile = fs.playlistFile := rfl

/-- Zip extraction never touches the playlist file. -/
lemma extractZipTheme_playlistFile (n : Str) (env : ArchiveEnv) (fs : FS) :
    (extractZipTheme n env fs).2.playlistFile = fs.playlistFile := by
  simp only [extractZipTheme]
  split_ifs <;> rfl

/-- Tar extraction never touches the playlist file. -/
lemma extractTarTheme_playlistFile (n : Str) (env : ArchiveEnv) (fs : FS) :
    (extractTarTheme n env fs).2.playlistFile = fs.playlistFile := by
  simp only [extractTarTheme]
  split_ifs <;> rfl

/-- Directory copy never touches the playlist file. -/
lemma copyThemeDirectory_playlistFile (v r : Bool) (n : Str) (fs : FS) :
    (copyThemeDirectory v r n fs).2.playlistFile = fs.playlistFile := by
  simp only [copyThemeDirectory]
  split_ifs <;> rfl

/-- The facade exception handler keeps the file-system component. -/
lemma catchInstallExc_snd (p : Except Exc ThemeOperation × FS) :
    (catchInstallExc p).2 = p.2 := by
  rcases p with ⟨r, fs⟩
  cases r <;> rfl

/-- `install_theme_from_file` never touches the playlist file. -/
lemma installThemeFromFile_playlistFile (src : InstallSrc) (g : Option Str)
    (env : InstallEnv) (fs : FS) :
    (installThemeFromFile src g env fs).2.playlistFile = fs.playlistFile := by
  simp only [installThemeFromFile]
  split_ifs <;>
    simp [catchInstallExc_snd, extractZipTheme_playlistFile,
      extractTarTheme_playlistFile, copyThemeDirectory_playlistFile]

/-- `install_theme_from_url` never touches the playlist file. -/
lemma installThemeFromUrl_playlistFile (u : UrlSrc) (g : Option Str)
    (env : InstallEnv) (fs : FS) :
    (installThemeFromUrl u g env fs).2.playlistFile = fs.playlistFile := by
  simp only [installThemeFromUrl]
  split_ifs <;> simp [installThemeFromFile_playlistFile]

/-- A successful `set_theme` ends in a persisted state. -/
lemma setTheme_persists (name : Str) (env : SetEnv) (st : TMState) (fs : FS)
    (h : (setTheme name env st fs).1.success = true) :
    persisted (setTheme name env st fs).2.1 (setTheme name env st fs).2.2 := by
  simp only [setTheme] at h ⊢
  split_ifs at h ⊢ <;> first
    | exact persisted_save _ _
    | simp_all

/-- Counterexample to C2 as stated: a successful `install_theme_from_file`
returns without persisting the in-memory playlist state (it never calls
`save_playlist`), so the playlist file can disagree with the returned
state. -/
theorem mutating_ops_persist_cex :
    (mutStep (.installFile ⟨"nord.zip".toList, true, false⟩ none
        ⟨⟨true, true, true, true⟩, true⟩) ⟨["a".toList], none⟩
        ⟨none, .missing, [], []⟩).1.success = true ∧
    ¬ persisted
        (mutStep (.installFile ⟨"nord.zip".toList, true, false⟩ none
          ⟨⟨true, true, true, true⟩, true⟩) ⟨["a".toList], none⟩
          ⟨none, .missing, [], []⟩).2.1
        (mutStep (.installFile ⟨"nord.zip".toList, true, false⟩ none
          ⟨⟨true, true, true, true⟩, true⟩) ⟨["a".toList], none⟩
          ⟨none, .missing, [], []⟩).2.2 := by
  decide

/-- Claim C2 (amended: the playlist-mutating operations `add_theme`,
`remove_theme`, `set_theme` and `random_theme` persist the in-memory
playlist state on success; the install operations never write the playlist
file at all). -/
theorem mutating_ops_persist (op : MutOp) (st : TMState) (fs : FS)
    (h : (mutStep op st fs).1.success = true) :
    (match op with
     | .installFile _ _ _ => (mutStep op st fs).2.2.playlistFile = fs.playlistFile
     | .installUrl _ _ _ => (mutStep op st fs).2.2.playlistFile = fs.playlistFile
     | _ => persisted (mutStep op st fs).2.1 (mutStep op st fs).2.2) := by
  cases op with
  | add p =>
    simp only [mutStep] at h ⊢
    simp only [addTheme] at h ⊢
    split_ifs at h ⊢
    exact persisted_save _ _
  | remove n =>
    simp only [mutStep] at h ⊢
    simp only [removeTheme] at h ⊢
    split_ifs at h ⊢ <;> exact persisted_save _ _
  | set n env =>
    simp only [mutStep] at h ⊢
    exact setTheme_persists n env st fs h
  | random k env =>
    simp only [mutStep, randomTheme] at h ⊢
    generalize hrs : randomSelect st.playlist st.currentTheme k = rs at h ⊢
    cases rs with
    | error m => simp at h
    | ok sel => exact setTheme_persists sel env st fs h
  | installFile src g env =>
    simp only [mutStep]
    exact installThemeFromFile_playlistFile src g env fs
  | installUrl u g env =>
    simp only [mutStep]
    exact installThemeFromUrl_playlistFile u g env fs

/-- Witness for C2 at a concrete input: a successful `remove_theme` leaves
the playlist file holding exactly the returned in-memory state. -/
theorem mutating_ops_persist_witness :
    persisted
      (mutStep (.remove "a".toList) ⟨["a".toList], none⟩
        ⟨none, .missing, [], []⟩).2.1
      (mutStep (.remove "a".toList) ⟨["a".toList], none⟩
        ⟨none, .missing, [], []⟩).2.2 :=
  mutating_ops_persist (.remove "a".toList) ⟨["a".toList], none⟩
    ⟨none, .missing, [], []⟩ (by decide)

/-! ## First-extractable-line lemmas -/

/-- `findSome?` returns the value of the first succeeding element. -/
lemma findSome_first (f : Str → Option Str) (l₁ : List Str) (line : Str) (l₂ : List Str)
    (t : Str) (h1 : ∀ l ∈ l₁, f l = none) (ht : f line = some t) :
    (l₁ ++ line :: l₂).findSome? f = some t := by
  induction l₁ with
  | nil => simp [List.findSome?_cons, ht]
  | cons a l₁ ih =>
    simp only [List.cons_append, List.findSome?_cons, h1 a (List.mem_cons_self _ _)]
    exact ih fun l hm => h1 l (List.mem_cons.2 (Or.inr hm))

/-- After the line rewrite, the parse scan finds the written line first,
provided every config line that does not literally start with
`GRUB_THEME=` fails extraction. -/
lemma findSome_updateGrubLines (W t : Str) (lines : List Str)
    (hW : parseGrubThemeLine W = some t)
    (hl : ∀ l ∈ lines, grubThemeKey.isPrefixOf l = false → parseGrubThemeLine l = none) :
    (updateGrubLines W lines).findSome? parseGrubThemeLine = some t := by
  induction lines with
  | nil => simp [updateGrubLines, List.findSome?_cons, hW]
  | cons l rest ih =>
    rw [updateGrubLines]
    by_cases hpl : grubThemeKey.isPrefixOf l = true
    · rw [if_pos hpl]
      simp [List.findSome?_cons, hW]
    · have hplf : grubThemeKey.isPrefixOf l = false := by
        cases hb : grubThemeKey.isPrefixOf l
        · rfl
        · exact absurd hb hpl
      rw [if_neg (by simp [hplf])]
      simp only [List.findSome?_cons, hl l (List.mem_cons_self _ _) hplf]
      exact ih fun l' hm hp => hl l' (List.mem_cons.2 (Or.inr hm)) hp

/-! ## Claim theorems: current-theme round-trip (C1) -/

/-- Counterexample to C1 as stated: `T = x/usr/share/grub/themes` is
non-empty, quote-free, and contains neither `/usr/share/grub/themes/` nor
`/theme.txt` as substrings, yet after the write the parser's
replace-all-occurrences mangles the path spliced at the boundary and
returns `xtheme.txt` instead of `T`. -/
theorem current_theme_roundtrip_cex :
    ("x/usr/share/grub/themes".toList ≠ ([] : Str)) ∧
    (∀ c ∈ "x/usr/share/grub/themes".toList, isQuoteCh c = false) ∧
    containsSub catalogRoot "x/usr/share/grub/themes".toList = false ∧
    containsSub descTail "x/usr/share/grub/themes".toList = false ∧
    getCurrentThemeFromGrub
        (updateGrubConfig "x/usr/share/grub/themes".toList
          ⟨true, true, .unknown, false, fun _ => .notFound⟩
          ⟨some ["GRUB_DEFAULT=0".toList], .missing, [], []⟩).2.grubConfig =
      some "xtheme.txt".toList ∧
    "xtheme.txt".toList ≠ "x/usr/share/grub/themes".toList := by
  decide

/-- Claim C1 (amended: the theme name must additionally not contain the
bare marker `usr/share/grub/themes` or `/theme.txt`, ruling out
occurrences splicing across the path boundaries, and contain no newline):
after `_update_grub_config` has rewritten or appended the directive line,
`_get_current_theme_from_grub` returns the theme name -- whatever the
playlist file holds -- provided no other config line parses as a theme
directive. -/
theorem current_theme_roundtrip (T : Str) (lines : List Str) (env : SetEnv) (fs : FS)
    (hne : T ≠ []) (_hq : ∀ c ∈ T, isQuoteCh c = false)
    (_hnl : Char.ofNat 10 ∉ T ∧ Char.ofNat 13 ∉ T)
    (h21 : ¬ catalogMarker <:+: T) (hD : ¬ descTail <:+: T)
    (hroot : env.isRoot = true) (hcfg : fs.grubConfig = some lines)
    (hlines : ∀ l ∈ lines, grubThemeKey.isPrefixOf l = false →
      parseGrubThemeLine l = none) :
    getCurrentThemeFromGrub (updateGrubConfig T env fs).2.grubConfig = some T ∧
    (loadPlaylist (updateGrubConfig T env fs).2).2 = some T := by
  have hfs : (updateGrubConfig T env fs).2.grubConfig =
      some (updateGrubLines (themeLine T) lines) := by
    simp [updateGrubConfig, hroot, hcfg]
  have hmain : getCurrentThemeFromGrub (updateGrubConfig T env fs).2.grubConfig =
      some T := by
    rw [hfs]
    exact findSome_updateGrubLines _ _ _ (parse_themeLine T hne h21 hD) hlines
  exact ⟨hmain, hmain⟩

/-- Witness for C1 at a concrete input: writing `nord` over a config with
one unrelated line makes the parse return `nord` and the re-derived
current theme after a load equal `nord`. -/
theorem current_theme_roundtrip_witness :
    getCurrentThemeFromGrub
        (updateGrubConfig "nord".toList ⟨true, true, .unknown, false, fun _ => .notFound⟩
          ⟨some ["GRUB_DEFAULT=0".toList], .missing, [], []⟩).2.grubConfig =
      some "nord".toList ∧
    (loadPlaylist
        (updateGrubConfig "nord".toList ⟨true, true, .unknown, false, fun _ => .notFound⟩
          ⟨some ["GRUB_DEFAULT=0".toList], .missing, [], []⟩).2).2 =
      some "nord".toList :=
  current_theme_roundtrip "nord".toList ["GRUB_DEFAULT=0".toList]
    ⟨true, true, .unknown, false, fun _ => .notFound⟩
    ⟨some ["GRUB_DEFAULT=0".toList], .missing, [], []⟩
    (by decide) (by decide) (by decide) (by decide) (by decide) rfl rfl (by decide)

/-! ## Claim theorems: boot-config parse (C3) -/

/-- Counterexample to C3 as stated: the first directive line fails the
catalog-root check, yet the scan continues and honors a later directive
line instead of returning absent. -/
theorem read_current_theme_cex :
    grubThemeKey.isPrefixOf "GRUB_THEME=abc".toList = true ∧
    parseGrubThemeLine "GRUB_THEME=abc".toList = none ∧
    getCurrentThemeFromGrub
        (some ["GRUB_THEME=abc".toList,
          "GRUB_THEME=\"/usr/share/grub/themes/nord/theme.txt\"".toList]) =
      some "nord".toList := by
  decide

/-- Claim C3 (amended: the reader honors the first line from which a name
can be extracted -- value contains the catalog root and yields a non-empty
remainder; directive lines failing extraction are skipped rather than
terminating the scan, and a trailing `theme.txt` is not required): a
missing file or a file with no extractable line yields absent, the first
extractable line wins, and a well-formed quoted directive for a clean name
`T` extracts exactly `T`. -/
theorem read_current_theme_spec :
    (getCurrentThemeFromGrub none = none) ∧
    (∀ lines, (∀ l ∈ lines, parseGrubThemeLine l = none) →
      getCurrentThemeFromGrub (some lines) = none) ∧
    (∀ (l₁ : List Str) (line : Str) (l₂ : List Str) (t : Str),
      (∀ l ∈ l₁, parseGrubThemeLine l = none) → parseGrubThemeLine line = some t →
      getCurrentThemeFromGrub (some (l₁ ++ line :: l₂)) = some t) ∧
    (∀ T, T ≠ [] → ¬ catalogMarker <:+: T → ¬ descTail <:+: T →
      parseGrubThemeLine (themeLine T) = some T) := by
  refine ⟨rfl, ?_, ?_, ?_⟩
  · intro lines h
    exact List.findSome?_eq_none_iff.2 h
  · intro l₁ line l₂ t h1 ht
    exact findSome_first _ l₁ line l₂ t h1 ht
  · exact parse_themeLine

/-- Witness for C3 at concrete inputs: a comment line is skipped and the
well-formed `nord` directive is honored; the written line for `nord`
parses back to `nord`. -/
theorem read_current_theme_spec_witness :
    getCurrentThemeFromGrub
        (some (["# comment".toList] ++
          "GRUB_THEME=\"/usr/share/grub/themes/nord/theme.txt\"".toList :: [])) =
      some "nord".toList ∧
    parseGrubThemeLine (themeLine "nord".toList) = some "nord".toList :=
  ⟨read_current_theme_spec.2.2.1 ["# comment".toList]
      "GRUB_THEME=\"/usr/share/grub/themes/nord/theme.txt\"".toList [] "nord".toList
      (by decide) (by decide),
   read_current_theme_spec.2.2.2 "nord".toList (by decide) (by decide) (by decide)⟩

end GrubTheme
